import Mathlib

/-!
Verification development for the BackupFileUpload repository.

The repository is a chunked-file-upload system:
* client (`src/App.vue`): chunk partitioning (`prepareChunks`), per-chunk
  MD5 fingerprinting through a worker pool, sequential chunk transfer with
  pause/resume/cancel, persisted resumable state in localStorage;
* worker pool (`worker-pool.js`, bundled inside `src/wasm-utils.js`):
  a bounded pool with a FIFO task queue (`exec` / `processNextTask`);
* server (`server.js`): Express handlers `/api/upload/init`,
  `/api/upload/chunk`, `/api/upload/complete`, a session map
  (`uploadTasks`), a dedup index (`fileHashMap`), and the streaming merge
  `mergeChunksWithStream`.

This file shallowly embeds those functions: byte arrays are `List Nat`,
the filesystem is an association list keyed by paths, the JS number used
for progress percentages is `ℚ`, and `uuidv4` is a fresh-counter.
-/

/-- Byte sequences (file and chunk contents). -/
abbrev Bytes := List Nat

/- ----------------------------------------------------------------
   Client data model (App.vue `data()` and `prepareChunks`)
   ---------------------------------------------------------------- -/

/-- Transfer state of one chunk; the source comment at chunk creation
reads `status: 'pending', // pending, uploading, paused, completed, failed`. -/
inductive ChunkStatus
  | pending
  | uploading
  | paused
  | completed
  | failed
deriving DecidableEq, Repr

/-- One entry of `this.chunks` as built by `prepareChunks`, plus the
`cancelToken` field attached dynamically in `uploadNextChunk` (modelled
as the boolean `hasCancelToken`).  The source field `end` is a Lean
keyword, so it is called `endPos` here. -/
structure ChunkDesc where
  index : Nat
  start : Nat
  endPos : Nat
  progress : ℚ
  status : ChunkStatus
  hash : Option String
  hasCancelToken : Bool
deriving DecidableEq, Repr

/-- `Math.ceil(file.size / this.chunkSize)` for natural inputs
(equal to the JS value whenever `chunkSize > 0`). -/
def chunkCountOf (fileSize chunkSize : Nat) : Nat :=
  (fileSize + chunkSize - 1) / chunkSize

/-- `prepareChunks` (App.vue): for `i` in `0 .. chunkCount-1`,
`start = i * chunkSize`, `end = min(file.size, start + chunkSize)`,
`progress = 0`, `status = 'pending'`, `hash = null`. -/
def prepareChunks (fileSize chunkSize : Nat) : List ChunkDesc :=
  (List.range (chunkCountOf fileSize chunkSize)).map fun i =>
    { index := i
      start := i * chunkSize
      endPos := min fileSize (i * chunkSize + chunkSize)
      progress := 0
      status := .pending
      hash := none
      hasCancelToken := false }

/- Arithmetic facts about the ceiling division used by `prepareChunks`. -/

theorem chunkCountOf_mul_ge (fileSize chunkSize : Nat) (hc : 0 < chunkSize) :
    fileSize ≤ chunkCountOf fileSize chunkSize * chunkSize := by
  unfold chunkCountOf
  have hdm := Nat.div_add_mod (fileSize + chunkSize - 1) chunkSize
  have hlt := Nat.mod_lt (fileSize + chunkSize - 1) hc
  have hcomm : (fileSize + chunkSize - 1) / chunkSize * chunkSize
      = chunkSize * ((fileSize + chunkSize - 1) / chunkSize) := Nat.mul_comm _ _
  omega

theorem chunkCountOf_pos (fileSize chunkSize : Nat)
    (hf : 0 < fileSize) (hc : 0 < chunkSize) :
    0 < chunkCountOf fileSize chunkSize := by
  unfold chunkCountOf
  have h1 : 1 * chunkSize ≤ fileSize + chunkSize - 1 := by omega
  have := (Nat.le_div_iff_mul_le hc).mpr h1
  omega

theorem chunkCountOf_pred_mul_lt (fileSize chunkSize : Nat)
    (hf : 0 < fileSize) (hc : 0 < chunkSize) :
    (chunkCountOf fileSize chunkSize - 1) * chunkSize < fileSize := by
  have hpos := chunkCountOf_pos fileSize chunkSize hf hc
  obtain ⟨q, hq⟩ : ∃ q, chunkCountOf fileSize chunkSize = q + 1 :=
    ⟨chunkCountOf fileSize chunkSize - 1, by omega⟩
  have hle : chunkCountOf fileSize chunkSize * chunkSize ≤ fileSize + chunkSize - 1 :=
    Nat.div_mul_le_self _ _
  rw [hq] at hle
  have hexp : (q + 1) * chunkSize = q * chunkSize + chunkSize := by ring
  rw [hq, Nat.add_sub_cancel]
  omega

/-- Sum of the byte-range sizes of the first `n` chunks. -/
theorem prepareChunks_size_sum (fileSize chunkSize n : Nat) :
    ((List.range n).map
        (fun i => min fileSize (i * chunkSize + chunkSize) - i * chunkSize)).sum
      = min fileSize (n * chunkSize) := by
  induction n with
  | zero => simp
  | succ k ih =>
    rw [List.range_succ, List.map_append, List.sum_append]
    simp only [List.map_cons, List.map_nil, List.sum_cons, List.sum_nil, ih]
    rcases Nat.le_total fileSize (k * chunkSize) with h | h
    · have h1 : min fileSize (k * chunkSize) = fileSize := Nat.min_eq_left h
      have h2 : min fileSize (k * chunkSize + chunkSize) = fileSize :=
        Nat.min_eq_left (le_trans h (Nat.le_add_right _ _))
      have h3 : fileSize ≤ (k + 1) * chunkSize := by
        calc fileSize ≤ k * chunkSize := h
        _ ≤ (k + 1) * chunkSize := Nat.mul_le_mul_right _ (Nat.le_succ k)
      rw [h1, h2, Nat.min_eq_left h3]
      omega
    · have h1 : min fileSize (k * chunkSize) = k * chunkSize := Nat.min_eq_right h
      rw [h1]
      have h2 : k * chunkSize ≤ min fileSize (k * chunkSize + chunkSize) :=
        le_min h (Nat.le_add_right _ _)
      have h3 : (k + 1) * chunkSize = k * chunkSize + chunkSize := by ring
      rw [h3]
      omega

/-- C1: for every `fileSize > 0` and `chunkSize > 0`, `prepareChunks`
produces exactly `⌈fileSize / chunkSize⌉` descriptors with indices
`0..N-1`; each byte range `[start, end)` is nonempty and ends within the
file, consecutive ranges are contiguous (hence non-overlapping), the
first range starts at byte 0, and the range sizes sum to `fileSize`.
The partition is a deterministic function of `fileSize` and `chunkSize`
alone, which in this embedding is immediate because `prepareChunks` is a
pure function of exactly those two arguments. -/
theorem c1_prepareChunks_partition (fileSize chunkSize : Nat)
    (hf : 0 < fileSize) (hc : 0 < chunkSize) :
    (prepareChunks fileSize chunkSize).length = chunkCountOf fileSize chunkSize
    ∧ (∀ k, (h : k < (prepareChunks fileSize chunkSize).length) →
        (prepareChunks fileSize chunkSize)[k].index = k
        ∧ (prepareChunks fileSize chunkSize)[k].start
            < (prepareChunks fileSize chunkSize)[k].endPos
        ∧ (prepareChunks fileSize chunkSize)[k].endPos ≤ fileSize)
    ∧ (∀ k, (h : k + 1 < (prepareChunks fileSize chunkSize).length) →
        (prepareChunks fileSize chunkSize)[k + 1].start
          = (prepareChunks fileSize chunkSize)[k].endPos)
    ∧ (∀ (h : 0 < (prepareChunks fileSize chunkSize).length),
        (prepareChunks fileSize chunkSize)[0].start = 0)
    ∧ ((prepareChunks fileSize chunkSize).map
        (fun ch => ch.endPos - ch.start)).sum = fileSize := by
  have hlen : (prepareChunks fileSize chunkSize).length
      = chunkCountOf fileSize chunkSize := by
    simp [prepareChunks]
  have hmul : ∀ k, k < chunkCountOf fileSize chunkSize → k * chunkSize < fileSize := by
    intro k hk
    have h1 : k ≤ chunkCountOf fileSize chunkSize - 1 := by omega
    have h2 : k * chunkSize ≤ (chunkCountOf fileSize chunkSize - 1) * chunkSize :=
      Nat.mul_le_mul_right _ h1
    exact lt_of_le_of_lt h2 (chunkCountOf_pred_mul_lt fileSize chunkSize hf hc)
  refine ⟨hlen, ?_, ?_, ?_, ?_⟩
  · intro k h
    have hk : k < chunkCountOf fileSize chunkSize := by rw [← hlen]; exact h
    simp only [prepareChunks, List.getElem_map, List.getElem_range]
    have h1 := hmul k hk
    refine ⟨trivial, ?_, ?_⟩ <;> omega
  · intro k h
    have hk : k + 1 < chunkCountOf fileSize chunkSize := by rw [← hlen]; exact h
    simp only [prepareChunks, List.getElem_map, List.getElem_range]
    have h1 : k * chunkSize + chunkSize ≤ fileSize := by
      have h2 := hmul (k + 1) hk
      have h3 : (k + 1) * chunkSize = k * chunkSize + chunkSize := by ring
      omega
    have h3 : (k + 1) * chunkSize = k * chunkSize + chunkSize := by ring
    omega
  · intro h
    simp [prepareChunks]
  · have hmap : (prepareChunks fileSize chunkSize).map (fun ch => ch.endPos - ch.start)
        = (List.range (chunkCountOf fileSize chunkSize)).map
            (fun i => min fileSize (i * chunkSize + chunkSize) - i * chunkSize) := by
      simp [prepareChunks, List.map_map]
    rw [hmap, prepareChunks_size_sum]
    exact Nat.min_eq_left (chunkCountOf_mul_ge fileSize chunkSize hc)

/-- Witness for C1 at the spec's §8 scenario scaled to bytes 25 / chunk 10:
three chunks `[0,10) [10,20) [20,25)`. -/
theorem c1_prepareChunks_partition_witness :
    (prepareChunks 25 10).length = chunkCountOf 25 10
    ∧ (∀ k, (h : k < (prepareChunks 25 10).length) →
        (prepareChunks 25 10)[k].index = k
        ∧ (prepareChunks 25 10)[k].start < (prepareChunks 25 10)[k].endPos
        ∧ (prepareChunks 25 10)[k].endPos ≤ 25)
    ∧ (∀ k, (h : k + 1 < (prepareChunks 25 10).length) →
        (prepareChunks 25 10)[k + 1].start = (prepareChunks 25 10)[k].endPos)
    ∧ (∀ (h : 0 < (prepareChunks 25 10).length),
        (prepareChunks 25 10)[0].start = 0)
    ∧ ((prepareChunks 25 10).map (fun ch => ch.endPos - ch.start)).sum = 25 :=
  c1_prepareChunks_partition 25 10 (by decide) (by decide)

/- ----------------------------------------------------------------
   Association-list maps (embedding of the JS `Map`s and directories)
   ---------------------------------------------------------------- -/

/-- Lookup in an association list (`Map.get` / `fs.existsSync` + read). -/
def lookupA {α β : Type} [DecidableEq α] : List (α × β) → α → Option β
  | [], _ => none
  | (k, v) :: rest, key => if k = key then some v else lookupA rest key

/-- Insert-or-replace (`Map.set` / writing a file, overwriting). -/
def setA {α β : Type} [DecidableEq α] : List (α × β) → α → β → List (α × β)
  | [], key, v => [(key, v)]
  | (k, w) :: rest, key, v =>
    if k = key then (k, v) :: rest else (k, w) :: setA rest key v

/-- Delete (`Map.delete` / `fs.unlinkSync`). -/
def eraseA {α β : Type} [DecidableEq α] : List (α × β) → α → List (α × β)
  | [], _ => []
  | (k, w) :: rest, key =>
    if k = key then eraseA rest key else (k, w) :: eraseA rest key

theorem lookupA_setA_self {α β : Type} [DecidableEq α]
    (l : List (α × β)) (k : α) (v : β) : lookupA (setA l k v) k = some v := by
  induction l with
  | nil => simp [setA, lookupA]
  | cons p rest ih =>
    by_cases h : p.1 = k
    · simp [setA, lookupA, h]
    · simp [setA, lookupA, h, ih]

theorem lookupA_setA_ne {α β : Type} [DecidableEq α]
    (l : List (α × β)) (k k' : α) (v : β) (h : k ≠ k') :
    lookupA (setA l k v) k' = lookupA l k' := by
  induction l with
  | nil => simp [setA, lookupA, h]
  | cons p rest ih =>
    by_cases hp : p.1 = k
    · simp [setA, lookupA, hp, h]
    · simp [setA, lookupA, hp, ih]

theorem lookupA_eraseA_self {α β : Type} [DecidableEq α]
    (l : List (α × β)) (k : α) : lookupA (eraseA l k) k = none := by
  induction l with
  | nil => simp [eraseA, lookupA]
  | cons p rest ih =>
    by_cases hp : p.1 = k
    · simp [eraseA, hp, ih]
    · simp [eraseA, lookupA, hp, ih]

/- ----------------------------------------------------------------
   Server data model (server.js)
   ---------------------------------------------------------------- -/

/-- One element of the init request's `chunksInfo` array. -/
structure ChunkInfo where
  index : Nat
  hash : String
  size : Nat
deriving DecidableEq, Repr

/-- A value of the server's `uploadTasks` map (the per-session record). -/
structure TaskInfo where
  uploadId : Nat
  fileName : String
  fileSize : Nat
  chunkSize : Nat
  chunkCount : Nat
  uploadedChunks : List Nat
  chunksInfo : List ChunkInfo
  fileHash : Option String
deriving DecidableEq, Repr

/-- A value of the server's `fileHashMap` dedup index. -/
structure StoredFile where
  fileName : String
  fileSize : Nat
deriving DecidableEq, Repr

/-- Whole server state: the two in-memory maps plus the relevant parts of
the filesystem.  `tempChunks` holds `TEMP_DIR/<uploadId>/chunk-<i>`,
`tempHashes` the `chunk-<i>.hash` sidecars, `uploadFiles` the merged
artifacts under `UPLOAD_DIR/<safeFileName>`.  `nextId` models `uuidv4`
as a fresh counter.  Timestamps (`createdAt`, `uploadTime`) carry no
behaviour in the handlers and are not modelled. -/
structure ServerState where
  uploadTasks : List (Nat × TaskInfo)
  fileHashMap : List (String × StoredFile)
  tempChunks : List ((Nat × Nat) × Bytes)
  tempHashes : List ((Nat × Nat) × String)
  uploadFiles : List (String × Bytes)
  nextId : Nat
deriving DecidableEq, Repr

/-- `chunksInfo.map(chunk => chunk.hash).join('_')`. -/
def joinHashes (infos : List ChunkInfo) : String :=
  String.intercalate "_" (infos.map (·.hash))

/-- `fileName.replace(/[^a-zA-Z0-9_\-\.]/g, '_')`. -/
def safeFileName (name : String) : String :=
  name.map fun c =>
    if c.isAlphanum || c == '_' || c == '-' || c == '.' then c else '_'

structure InitReq where
  fileName : String
  fileSize : Nat
  chunkSize : Nat
  chunkCount : Nat
  chunksInfo : List ChunkInfo
deriving DecidableEq, Repr

structure InitResp where
  code : Nat
  uploadId : Nat
  shouldSkipUpload : Bool
  existingFile : Option String
  uploadedChunks : List Nat
deriving DecidableEq, Repr

/-- `POST /api/upload/init`.  If `chunksInfo` is non-empty, the joined
fingerprint key is looked up in `fileHashMap`; when it hits and the
referenced artifact still exists on disk, the handler answers with a
fresh uploadId and `shouldSkipUpload: true` and returns before creating
any session or directory.  Otherwise a session is created; the scan of
the freshly created (hence empty) upload directory yields no previously
uploaded chunks, so `uploadedChunks` is `[]`. -/
def initHandler (s : ServerState) (req : InitReq) : ServerState × InitResp :=
  let dedupHit : Option StoredFile :=
    if req.chunksInfo.length > 0 then
      match lookupA s.fileHashMap (joinHashes req.chunksInfo) with
      | some existing =>
        if (lookupA s.uploadFiles existing.fileName).isSome then some existing
        else none
      | none => none
    else none
  match dedupHit with
  | some existing =>
    ({ s with nextId := s.nextId + 1 },
     { code := 0, uploadId := s.nextId, shouldSkipUpload := true,
       existingFile := some existing.fileName, uploadedChunks := [] })
  | none =>
    let task : TaskInfo :=
      { uploadId := s.nextId
        fileName := req.fileName
        fileSize := req.fileSize
        chunkSize := req.chunkSize
        chunkCount := req.chunkCount
        uploadedChunks := []
        chunksInfo := req.chunksInfo
        fileHash :=
          if req.chunksInfo.length > 0 then some (joinHashes req.chunksInfo)
          else none }
    let s' : ServerState :=
      { s with uploadTasks := setA s.uploadTasks s.nextId task, nextId := s.nextId + 1 }
    (s', { code := 0, uploadId := s.nextId, shouldSkipUpload := false,
           existingFile := none, uploadedChunks := [] })

structure ChunkReq where
  uploadId : Option Nat
  chunkIndex : Option Nat
  chunkHash : Option String
  file : Option Bytes
deriving DecidableEq, Repr

/-- `warnedMismatch` records that the handler hit the `console.warn`
branch for a declared-fingerprint mismatch (which has no other effect). -/
structure ChunkResp where
  code : Nat
  uploadedCount : Nat
  totalCount : Nat
  warnedMismatch : Bool
deriving DecidableEq, Repr

/-- `POST /api/upload/chunk`: validates presence of `uploadId`/`chunkIndex`
and of the uploaded file, looks the session up, compares a declared
fingerprint against the session's recorded value (warn only), moves the
bytes to `chunk-<index>` (overwriting), writes the `.hash` sidecar, adds
the index to `uploadedChunks` unless already present, and answers the
success envelope with the received count. -/
def chunkHandler (s : ServerState) (req : ChunkReq) : ServerState × ChunkResp :=
  match req.uploadId, req.chunkIndex with
  | some uid, some idx =>
    (match lookupA s.uploadTasks uid with
     | none =>
       (s, { code := 404, uploadedCount := 0, totalCount := 0,
             warnedMismatch := false })
     | some task =>
       match req.file with
       | none =>
         (s, { code := 400, uploadedCount := 0, totalCount := 0,
               warnedMismatch := false })
       | some bytes =>
         let warned : Bool :=
           match req.chunkHash with
           | some h =>
             decide (0 < task.chunksInfo.length) &&
             (match task.chunksInfo.find? (fun c => c.index == idx) with
              | some ci => ci.hash != h
              | none => false)
           | none => false
         let task' :=
           if idx ∈ task.uploadedChunks then task
           else { task with uploadedChunks := task.uploadedChunks ++ [idx] }
         ({ s with
            tempChunks := setA s.tempChunks (uid, idx) bytes
            tempHashes :=
              match req.chunkHash with
              | some h => setA s.tempHashes (uid, idx) h
              | none => s.tempHashes
            uploadTasks := setA s.uploadTasks uid task' },
          { code := 0, uploadedCount := task'.uploadedChunks.length,
            totalCount := task.chunkCount, warnedMismatch := warned }))
  | _, _ =>
    (s, { code := 400, uploadedCount := 0, totalCount := 0,
          warnedMismatch := false })

/-- Helper from server.js: indices in `0..totalChunks-1` missing from
`uploadedChunks`. -/
def getMissingChunks (uploadedChunks : List Nat) (totalChunks : Nat) : List Nat :=
  (List.range totalChunks).filter (fun i => !(uploadedChunks.contains i))

/-- The loop body of `mergeChunksWithStream`: starting at index `i` with
`k` chunks left and `acc` already written to the destination stream,
read each chunk in increasing index order and append it.  `read j = none`
models both a missing `chunk-<j>` file and a read-stream error at `j`;
either aborts with that index. -/
def mergeLoop (read : Nat → Option Bytes) : Nat → Nat → Bytes → Except Nat Bytes
  | _, 0, acc => .ok acc
  | i, k + 1, acc =>
    match read i with
    | none => .error i
    | some b => mergeLoop read (i + 1) k (acc ++ b)

/-- `mergeChunksWithStream(sourceDir, targetPath, totalChunks)` without
its filesystem effects: the returned value is the content written under
the final name on success; on error the caller-visible effect is that the
partially written destination is deleted (`fs.unlinkSync(targetPath)`),
which `completeHandler` applies to its state. -/
def mergeChunksWithStream (read : Nat → Option Bytes) (totalChunks : Nat) :
    Except Nat Bytes :=
  mergeLoop read 0 totalChunks []

structure CompleteReq where
  uploadId : Nat
  fileName : String
  totalChunks : Nat
deriving DecidableEq, Repr

structure CompleteResp where
  code : Nat
  fileName : Option String
  fileSize : Option Nat
  sizeWarn : Bool
  missing : List Nat
deriving DecidableEq, Repr

/-- `POST /api/upload/complete`.  `read` is the filesystem read used during
the streaming merge (its intended value is
`fun i => lookupA s.tempChunks (req.uploadId, i)`; keeping it a parameter
lets a read that fails mid-merge be expressed).  The handler refuses with
400 when the received count differs from `chunkCount` or when some
`chunk-<i>` file is absent; a merge error deletes the destination
(`createWriteStream` truncated it) and answers 500; success stores the
artifact, registers the dedup key, clears the chunk directory and the
session, and answers the success envelope. -/
def completeHandler (s : ServerState) (read : Nat → Option Bytes)
    (req : CompleteReq) : ServerState × CompleteResp :=
  match lookupA s.uploadTasks req.uploadId with
  | none =>
    (s, { code := 404, fileName := none, fileSize := none,
          sizeWarn := false, missing := [] })
  | some task =>
    let safeName := safeFileName req.fileName
    if task.uploadedChunks.length ≠ task.chunkCount then
      (s, { code := 400, fileName := none, fileSize := none, sizeWarn := false,
            missing := getMissingChunks task.uploadedChunks task.chunkCount })
    else
      let missingFiles := (List.range task.chunkCount).filter
        (fun i => (lookupA s.tempChunks (req.uploadId, i)).isNone)
      if missingFiles ≠ [] then
        (s, { code := 400, fileName := none, fileSize := none,
              sizeWarn := false, missing := missingFiles })
      else
        match mergeChunksWithStream read task.chunkCount with
        | .error _ =>
          ({ s with uploadFiles := eraseA s.uploadFiles safeName },
           { code := 500, fileName := none, fileSize := none,
             sizeWarn := false, missing := [] })
        | .ok content =>
          ({ s with
             uploadFiles := setA s.uploadFiles safeName content
             fileHashMap :=
               match task.fileHash with
               | some fh =>
                 setA s.fileHashMap fh
                   { fileName := safeName, fileSize := content.length }
               | none => s.fileHashMap
             tempChunks := s.tempChunks.filter (fun p => !(p.1.1 == req.uploadId))
             tempHashes := s.tempHashes.filter (fun p => !(p.1.1 == req.uploadId))
             uploadTasks := eraseA s.uploadTasks req.uploadId },
           { code := 0, fileName := some safeName,
             fileSize := some content.length,
             sizeWarn := decide (content.length ≠ task.fileSize),
             missing := [] })

/- ----------------------------------------------------------------
   C2: streaming merge is the ordered concatenation
   ---------------------------------------------------------------- -/

theorem mergeLoop_ok (store : Nat → Bytes) (read : Nat → Option Bytes) :
    ∀ (k i : Nat) (acc : Bytes),
      (∀ j, i ≤ j → j < i + k → read j = some (store j)) →
      mergeLoop read i k acc = .ok (acc ++ ((List.range' i k).map store).flatten) := by
  intro k
  induction k with
  | zero => intro i acc _; simp [mergeLoop]
  | succ n ih =>
    intro i acc hread
    have hi : read i = some (store i) := hread i (le_refl i) (by omega)
    have hrest : ∀ j, i + 1 ≤ j → j < (i + 1) + n → read j = some (store j) := by
      intro j h1 h2
      exact hread j (by omega) (by omega)
    simp only [mergeLoop, hi]
    rw [ih (i + 1) (acc ++ store i) hrest, List.range'_succ]
    simp

/-- C2: for every chunk count `T` and stored chunk files `chunk-0 ..
chunk-(T-1)`, a successful run of `mergeChunksWithStream` produces at the
target exactly the ordered concatenation of the chunk files' bytes,
reading and appending them in strictly increasing index order `0..T-1`
(the result is the flattening of the index-ordered list of chunk
contents). -/
theorem c2_merge_ordered_concat (store : Nat → Bytes) (read : Nat → Option Bytes)
    (total : Nat) (hread : ∀ i, i < total → read i = some (store i)) :
    mergeChunksWithStream read total = .ok (((List.range total).map store).flatten) := by
  unfold mergeChunksWithStream
  rw [mergeLoop_ok store read total 0 [] (fun j _ hj => hread j (by omega))]
  rw [List.range_eq_range']
  simp

/-- Witness for C2 with three concrete chunks `[1,2] [3] [4,5]`. -/
theorem c2_merge_ordered_concat_witness :
    mergeChunksWithStream
        (fun i => some (if i = 0 then [1, 2] else if i = 1 then [3] else [4, 5])) 3
      = .ok [1, 2, 3, 4, 5] := by
  have h := c2_merge_ordered_concat
    (fun i => if i = 0 then [1, 2] else if i = 1 then [3] else [4, 5])
    (fun i => some (if i = 0 then [1, 2] else if i = 1 then [3] else [4, 5]))
    3 (fun i _ => rfl)
  simpa using h

/- ----------------------------------------------------------------
   C3: completion guards and no partial artifact
   ---------------------------------------------------------------- -/

/-- C3: the completion operation merges only when the session's
received-index count equals the declared `chunkCount` and every expected
chunk file exists immediately before merging: a count mismatch or a
missing chunk file is refused with an error response and the state is
untouched; a read/write error during merging deletes the partially
written destination, so no artifact is left under the final name; a
successful merge stores exactly the merged content under the final
name with the success envelope. -/
theorem c3_complete_refusal_and_cleanup (s : ServerState)
    (read : Nat → Option Bytes) (req : CompleteReq) (task : TaskInfo)
    (htask : lookupA s.uploadTasks req.uploadId = some task) :
    (task.uploadedChunks.length ≠ task.chunkCount →
       (completeHandler s read req).2.code = 400
       ∧ (completeHandler s read req).1 = s)
    ∧ (∀ i, task.uploadedChunks.length = task.chunkCount →
        i < task.chunkCount → lookupA s.tempChunks (req.uploadId, i) = none →
       (completeHandler s read req).2.code = 400
       ∧ (completeHandler s read req).1 = s)
    ∧ (∀ e, task.uploadedChunks.length = task.chunkCount →
        (∀ i, i < task.chunkCount →
          (lookupA s.tempChunks (req.uploadId, i)).isSome) →
        mergeChunksWithStream read task.chunkCount = Except.error e →
       (completeHandler s read req).2.code = 500
       ∧ lookupA (completeHandler s read req).1.uploadFiles
           (safeFileName req.fileName) = none)
    ∧ (∀ content, task.uploadedChunks.length = task.chunkCount →
        (∀ i, i < task.chunkCount →
          (lookupA s.tempChunks (req.uploadId, i)).isSome) →
        mergeChunksWithStream read task.chunkCount = Except.ok content →
       (completeHandler s read req).2.code = 0
       ∧ lookupA (completeHandler s read req).1.uploadFiles
           (safeFileName req.fileName) = some content) := by
  refine ⟨?_, ?_, ?_, ?_⟩
  · intro hne
    simp [completeHandler, htask, hne]
  · intro i heq hi hnone
    have hmem : i ∈ (List.range task.chunkCount).filter
        (fun j => (lookupA s.tempChunks (req.uploadId, j)).isNone) := by
      refine List.mem_filter.mpr ⟨List.mem_range.mpr hi, ?_⟩
      simp [hnone]
    have hne : (List.range task.chunkCount).filter
        (fun j => (lookupA s.tempChunks (req.uploadId, j)).isNone) ≠ [] :=
      List.ne_nil_of_mem hmem
    simp [completeHandler, htask, heq, hne]
  · intro e heq hpresent hmerge
    have hnil : (List.range task.chunkCount).filter
        (fun j => (lookupA s.tempChunks (req.uploadId, j)).isNone) = [] := by
      rw [List.filter_eq_nil_iff]
      intro a ha
      have hs := hpresent a (List.mem_range.mp ha)
      intro hcontra
      rw [Option.isNone_iff_eq_none] at hcontra
      rw [hcontra] at hs
      simp at hs
    simp [completeHandler, htask, heq, hnil, hmerge, lookupA_eraseA_self]
  · intro content heq hpresent hmerge
    have hnil : (List.range task.chunkCount).filter
        (fun j => (lookupA s.tempChunks (req.uploadId, j)).isNone) = [] := by
      rw [List.filter_eq_nil_iff]
      intro a ha
      have hs := hpresent a (List.mem_range.mp ha)
      intro hcontra
      rw [Option.isNone_iff_eq_none] at hcontra
      rw [hcontra] at hs
      simp at hs
    simp [completeHandler, htask, heq, hnil, hmerge, lookupA_setA_self]

/-- Concrete session used by the C3 witness: 2 chunks, both received. -/
def c3Task : TaskInfo :=
  { uploadId := 0, fileName := "f.bin", fileSize := 3, chunkSize := 2,
    chunkCount := 2, uploadedChunks := [0, 1], chunksInfo := [],
    fileHash := none }

/-- Concrete server state used by the C3 witness. -/
def c3State : ServerState :=
  { uploadTasks := [(0, c3Task)], fileHashMap := [],
    tempChunks := [((0, 0), [9, 9]), ((0, 1), [7])], tempHashes := [],
    uploadFiles := [], nextId := 1 }

/-- Concrete completion request used by the C3 witness. -/
def c3Req : CompleteReq := { uploadId := 0, fileName := "f.bin", totalChunks := 2 }

/-- Reads used by the C3 witness merge: the stored chunk files. -/
def c3Read : Nat → Option Bytes := fun i => lookupA c3State.tempChunks (0, i)

/-- Witness for C3 at a concrete two-chunk session. -/
theorem c3_complete_refusal_and_cleanup_witness :
    (c3Task.uploadedChunks.length ≠ c3Task.chunkCount →
       (completeHandler c3State c3Read c3Req).2.code = 400
       ∧ (completeHandler c3State c3Read c3Req).1 = c3State)
    ∧ (∀ i, c3Task.uploadedChunks.length = c3Task.chunkCount →
        i < c3Task.chunkCount →
        lookupA c3State.tempChunks (c3Req.uploadId, i) = none →
       (completeHandler c3State c3Read c3Req).2.code = 400
       ∧ (completeHandler c3State c3Read c3Req).1 = c3State)
    ∧ (∀ e, c3Task.uploadedChunks.length = c3Task.chunkCount →
        (∀ i, i < c3Task.chunkCount →
          (lookupA c3State.tempChunks (c3Req.uploadId, i)).isSome) →
        mergeChunksWithStream c3Read c3Task.chunkCount = Except.error e →
       (completeHandler c3State c3Read c3Req).2.code = 500
       ∧ lookupA (completeHandler c3State c3Read c3Req).1.uploadFiles
           (safeFileName c3Req.fileName) = none)
    ∧ (∀ content, c3Task.uploadedChunks.length = c3Task.chunkCount →
        (∀ i, i < c3Task.chunkCount →
          (lookupA c3State.tempChunks (c3Req.uploadId, i)).isSome) →
        mergeChunksWithStream c3Read c3Task.chunkCount = Except.ok content →
       (completeHandler c3State c3Read c3Req).2.code = 0
       ∧ lookupA (completeHandler c3State c3Read c3Req).1.uploadFiles
           (safeFileName c3Req.fileName) = some content) :=
  c3_complete_refusal_and_cleanup c3State c3Read c3Req c3Task rfl

/- ----------------------------------------------------------------
   C7: fingerprint mismatch is logged, never rejected
   C10: re-upload of a received index is idempotent on the record
   ---------------------------------------------------------------- -/

/-- C7: a chunk-upload request whose declared fingerprint differs from
the fingerprint recorded in the session's `chunksInfo` for that index is
logged (the `console.warn` branch is taken) but not rejected: the bytes
are still stored under `(sessionId, index)`, the index is recorded in
`uploadedChunks`, and the response is the success envelope `code = 0`. -/
theorem c7_mismatch_logged_not_rejected (s : ServerState) (uid idx : Nat)
    (h : String) (bytes : Bytes) (task : TaskInfo) (ci : ChunkInfo)
    (htask : lookupA s.uploadTasks uid = some task)
    (hfind : task.chunksInfo.find? (fun c => c.index == idx) = some ci)
    (hne : ci.hash ≠ h) :
    (chunkHandler s ⟨some uid, some idx, some h, some bytes⟩).2.code = 0
    ∧ (chunkHandler s ⟨some uid, some idx, some h, some bytes⟩).2.warnedMismatch
        = true
    ∧ lookupA (chunkHandler s ⟨some uid, some idx, some h, some bytes⟩).1.tempChunks
        (uid, idx) = some bytes
    ∧ ∃ t', lookupA
          (chunkHandler s ⟨some uid, some idx, some h, some bytes⟩).1.uploadTasks
          uid = some t'
        ∧ idx ∈ t'.uploadedChunks := by
  have hmem : ci ∈ task.chunksInfo := List.mem_of_find?_eq_some hfind
  have hpos : 0 < task.chunksInfo.length :=
    List.length_pos.mpr (List.ne_nil_of_mem hmem)
  have hbne : (ci.hash != h) = true := bne_iff_ne.mpr hne
  refine ⟨?_, ?_, ?_, ?_⟩
  · simp [chunkHandler, htask]
  · simp [chunkHandler, htask, hfind, hpos, hbne]
  · simp [chunkHandler, htask, lookupA_setA_self]
  · refine ⟨if idx ∈ task.uploadedChunks then task
      else { task with uploadedChunks := task.uploadedChunks ++ [idx] }, ?_, ?_⟩
    · simp only [chunkHandler, htask]
      exact lookupA_setA_self ..
    · by_cases hidx : idx ∈ task.uploadedChunks
      · simp [hidx]
      · simp [hidx]

/-- C10: re-uploading an already-received chunk index to an existing
session is idempotent on the session record: the index is not appended a
second time (the recorded index list is unchanged, so with a
duplicate-free record it stays duplicate-free), the stored chunk file is
overwritten in place at `(sessionId, index)`, the response is the success
envelope, and the returned `uploadedCount` equals the number of distinct
received indices; moreover any chunk upload to a duplicate-free session
leaves it duplicate-free. -/
theorem c10_chunk_reupload_idempotent (s : ServerState) (uid idx : Nat)
    (hh : Option String) (bytes : Bytes) (task : TaskInfo)
    (htask : lookupA s.uploadTasks uid = some task)
    (hnodup : task.uploadedChunks.Nodup)
    (hmem : idx ∈ task.uploadedChunks) :
    lookupA (chunkHandler s ⟨some uid, some idx, hh, some bytes⟩).1.uploadTasks uid
        = some task
    ∧ lookupA (chunkHandler s ⟨some uid, some idx, hh, some bytes⟩).1.tempChunks
        (uid, idx) = some bytes
    ∧ (chunkHandler s ⟨some uid, some idx, hh, some bytes⟩).2.code = 0
    ∧ (chunkHandler s ⟨some uid, some idx, hh, some bytes⟩).2.uploadedCount
        = task.uploadedChunks.dedup.length
    ∧ (∀ idx2 hh2 bytes2 t',
        lookupA (chunkHandler s ⟨some uid, some idx2, hh2, some bytes2⟩).1.uploadTasks
            uid = some t' →
        t'.uploadedChunks.Nodup) := by
  refine ⟨?_, ?_, ?_, ?_, ?_⟩
  · simp only [chunkHandler, htask]
    cases hh <;> simp [hmem, lookupA_setA_self]
  · cases hh <;> simp [chunkHandler, htask, lookupA_setA_self]
  · cases hh <;> simp [chunkHandler, htask]
  · have hded : task.uploadedChunks.dedup = task.uploadedChunks :=
      List.dedup_eq_self.mpr hnodup
    cases hh <;> simp [chunkHandler, htask, hmem, hded]
  · intro idx2 hh2 bytes2 t' hlook
    have ht' : t' = (if idx2 ∈ task.uploadedChunks then task
        else { task with uploadedChunks := task.uploadedChunks ++ [idx2] }) := by
      cases hh2 <;>
        simp only [chunkHandler, htask] at hlook <;>
        rw [lookupA_setA_self] at hlook <;>
        exact (Option.some.injEq _ _ ▸ hlook.symm :)
    by_cases h2 : idx2 ∈ task.uploadedChunks
    · rw [ht', if_pos h2]; exact hnodup
    · rw [ht', if_neg h2]
      simp only [List.nodup_append, List.nodup_singleton, true_and]
      exact ⟨hnodup, by simp [List.disjoint_singleton, h2]⟩

/-- Concrete session for the C7 witness: one chunk whose recorded
fingerprint is `"aaa"`. -/
def c7Task : TaskInfo :=
  { uploadId := 0, fileName := "f", fileSize := 2, chunkSize := 2,
    chunkCount := 1, uploadedChunks := [], chunksInfo := [⟨0, "aaa", 2⟩],
    fileHash := some "aaa" }

/-- Concrete server state for the C7 witness. -/
def c7State : ServerState :=
  { uploadTasks := [(0, c7Task)], fileHashMap := [], tempChunks := [],
    tempHashes := [], uploadFiles := [], nextId := 1 }

/-- Witness for C7: uploading chunk 0 with declared fingerprint `"bbb"`
against recorded `"aaa"` warns but succeeds and stores the bytes. -/
theorem c7_mismatch_logged_not_rejected_witness :
    (chunkHandler c7State ⟨some 0, some 0, some "bbb", some [5, 6]⟩).2.code = 0
    ∧ (chunkHandler c7State ⟨some 0, some 0, some "bbb", some [5, 6]⟩).2.warnedMismatch
        = true
    ∧ lookupA (chunkHandler c7State ⟨some 0, some 0, some "bbb", some [5, 6]⟩).1.tempChunks
        (0, 0) = some [5, 6]
    ∧ ∃ t', lookupA
          (chunkHandler c7State ⟨some 0, some 0, some "bbb", some [5, 6]⟩).1.uploadTasks
          0 = some t'
        ∧ 0 ∈ t'.uploadedChunks :=
  c7_mismatch_logged_not_rejected c7State 0 0 "bbb" [5, 6] c7Task ⟨0, "aaa", 2⟩
    rfl rfl (by decide)

/-- Concrete session for the C10 witness: chunk 0 already received. -/
def c10Task : TaskInfo :=
  { uploadId := 7, fileName := "g", fileSize := 3, chunkSize := 2,
    chunkCount := 2, uploadedChunks := [0], chunksInfo := [], fileHash := none }

/-- Concrete server state for the C10 witness. -/
def c10State : ServerState :=
  { uploadTasks := [(7, c10Task)], fileHashMap := [],
    tempChunks := [((7, 0), [1])], tempHashes := [], uploadFiles := [],
    nextId := 8 }

/-- Witness for C10: re-uploading chunk 0 with new bytes `[9]`. -/
theorem c10_chunk_reupload_idempotent_witness :
    lookupA (chunkHandler c10State ⟨some 7, some 0, none, some [9]⟩).1.uploadTasks 7
        = some c10Task
    ∧ lookupA (chunkHandler c10State ⟨some 7, some 0, none, some [9]⟩).1.tempChunks
        (7, 0) = some [9]
    ∧ (chunkHandler c10State ⟨some 7, some 0, none, some [9]⟩).2.code = 0
    ∧ (chunkHandler c10State ⟨some 7, some 0, none, some [9]⟩).2.uploadedCount
        = c10Task.uploadedChunks.dedup.length
    ∧ (∀ idx2 hh2 bytes2 t',
        lookupA (chunkHandler c10State ⟨some 7, some idx2, hh2, some bytes2⟩).1.uploadTasks
            7 = some t' →
        t'.uploadedChunks.Nodup) :=
  c10_chunk_reupload_idempotent c10State 7 0 none [9] c10Task rfl
    (by decide) (by decide)

/- ----------------------------------------------------------------
   Worker pool (worker-pool.js): C6
   ---------------------------------------------------------------- -/

/-- One entry of `this.workers`: `{ worker, busy, currentTaskId }` (the
DOM `Worker` object itself carries no pool-visible state). -/
structure WorkerInfo where
  busy : Bool
  currentTaskId : Option Nat
deriving DecidableEq, Repr

/-- Pool state: `workers`, the `idleWorkers` index list (shifted from the
front, pushed at the back), and the FIFO `tasks` queue (task ids; the
promise bookkeeping in `taskMap` only resolves/rejects callers and is not
needed for the scheduling claims). -/
structure PoolState where
  workers : List WorkerInfo
  idleWorkers : List Nat
  tasks : List Nat
deriving DecidableEq, Repr

/-- `createWorkers` loop from the constructor: `n` idle workers with
indices `0..n-1` pushed into `idleWorkers`. -/
def initPool (n : Nat) : PoolState :=
  { workers := List.replicate n ⟨false, none⟩
    idleWorkers := List.range n
    tasks := [] }

/-- `processNextTask`: if an idle worker and a queued task both exist,
shift the first idle worker and the first (earliest-submitted) task and
dispatch it; otherwise return.  The `postMessage` try/catch failure
branch (an external send error that re-idles the worker) is not
modelled; sends succeed here. -/
def processNextTask (s : PoolState) : PoolState :=
  match s.idleWorkers with
  | [] => s
  | w :: restIdle =>
    match s.tasks with
    | [] => s
    | t :: restTasks =>
      { workers := s.workers.set w ⟨true, some t⟩
        idleWorkers := restIdle
        tasks := restTasks }

theorem processNextTask_idle_nil (s : PoolState) (h : s.idleWorkers = []) :
    processNextTask s = s := by
  unfold processNextTask
  rw [h]

theorem processNextTask_tasks_nil (s : PoolState) (h : s.tasks = []) :
    processNextTask s = s := by
  unfold processNextTask
  rw [h]
  cases s.idleWorkers <;> rfl

theorem processNextTask_dispatch (s : PoolState) (w : Nat) (rest : List Nat)
    (t : Nat) (ts : List Nat)
    (hidle : s.idleWorkers = w :: rest) (htasks : s.tasks = t :: ts) :
    processNextTask s =
      { workers := s.workers.set w ⟨true, some t⟩
        idleWorkers := rest
        tasks := ts } := by
  unfold processNextTask
  rw [hidle, htasks]

/-- `exec`: push the task at the back of the queue, then try to process. -/
def execTask (s : PoolState) (t : Nat) : PoolState :=
  processNextTask { s with tasks := s.tasks ++ [t] }

/-- The common state effect of the `onmessage` and `onerror` handlers for
worker `w` (they differ only in resolving vs rejecting the promise):
guarded by `workerInfo && workerInfo.currentTaskId`, mark the worker
idle, push its index at the back of `idleWorkers`, and process the next
task. -/
def finishTask (s : PoolState) (w : Nat) : PoolState :=
  match s.workers[w]? with
  | some wi =>
    if wi.currentTaskId.isSome then
      processNextTask
        { s with workers := s.workers.set w ⟨false, none⟩
                 idleWorkers := s.idleWorkers ++ [w] }
    else s
  | none => s

/-- Pool transitions: a task submission or a worker completion/error. -/
inductive PoolStep : PoolState → PoolState → Prop
  | exec (s : PoolState) (t : Nat) : PoolStep s (execTask s t)
  | finish (s : PoolState) (w : Nat) : PoolStep s (finishTask s w)

/-- States reachable from a freshly constructed pool of `n` workers. -/
def PoolReachable (n : Nat) (s : PoolState) : Prop :=
  Relation.ReflTransGen PoolStep (initPool n) s

/-- Number of workers currently holding a task. -/
def busyCount (s : PoolState) : Nat := s.workers.countP (·.busy)

/-- Inductive pool invariant: the worker array keeps its size, idle
indices are in range, and a queued task and an idle worker never coexist
at rest (each event drains one of the two). -/
def PoolInv (n : Nat) (s : PoolState) : Prop :=
  s.workers.length = n
  ∧ (∀ w ∈ s.idleWorkers, w < n)
  ∧ (s.idleWorkers = [] ∨ s.tasks = [])

theorem poolInv_init (n : Nat) : PoolInv n (initPool n) := by
  refine ⟨by simp [initPool], ?_, Or.inr rfl⟩
  intro w hw
  simpa [initPool] using List.mem_range.mp hw

theorem poolInv_exec (n : Nat) (s : PoolState) (t : Nat) (h : PoolInv n s) :
    PoolInv n (execTask s t) := by
  obtain ⟨hlen, hmem, hrest⟩ := h
  unfold execTask
  rcases hi : s.idleWorkers with _ | ⟨w, rest⟩
  · rw [processNextTask_idle_nil _ (by simp [hi])]
    exact ⟨hlen, by simp [hi], Or.inl (by simp [hi])⟩
  · have htasks : s.tasks = [] := by
      rcases hrest with h1 | h1
      · rw [hi] at h1; cases h1
      · exact h1
    rw [processNextTask_dispatch _ w rest t [] (by simp [hi])
      (by simp [htasks])]
    refine ⟨by simp [hlen], ?_, Or.inr rfl⟩
    intro w' hw'
    exact hmem w' (by rw [hi]; exact List.mem_cons_of_mem _ hw')

theorem poolInv_finish (n : Nat) (s : PoolState) (w : Nat) (h : PoolInv n s) :
    PoolInv n (finishTask s w) := by
  obtain ⟨hlen, hmem, hrest⟩ := h
  unfold finishTask
  cases hw : s.workers[w]? with
  | none => exact ⟨hlen, hmem, hrest⟩
  | some wi =>
    by_cases hcur : wi.currentTaskId.isSome
    · have hwlt : w < n := by
        rw [← hlen]
        exact (List.getElem?_eq_some_iff.mp hw).1
      simp only [hcur, if_true]
      cases ht : s.tasks with
      | nil =>
        rw [processNextTask_tasks_nil _ (by simp [ht])]
        refine ⟨by simp [hlen], ?_, Or.inr (by simp [ht])⟩
        intro w' hw'
        simp only at hw'
        rcases List.mem_append.mp hw' with h1 | h1
        · exact hmem w' h1
        · simp at h1; omega
      | cons t ts =>
        have hidle : s.idleWorkers = [] := by
          rcases hrest with h1 | h1
          · exact h1
          · rw [ht] at h1; cases h1
        rw [processNextTask_dispatch _ w [] t ts (by simp [hidle]) (by simp [ht])]
        exact ⟨by simp [hlen], by simp, Or.inl rfl⟩
    · simp only [hcur, if_false]
      exact ⟨hlen, hmem, hrest⟩

theorem poolInv_reachable (n : Nat) (s : PoolState)
    (h : PoolReachable n s) : PoolInv n s := by
  induction h with
  | refl => exact poolInv_init n
  | tail _ hstep ih =>
    cases hstep with
    | exec t => exact poolInv_exec n _ t ih
    | finish w => exact poolInv_finish n _ w ih

/-- C6: in every reachable state of a pool with `n` workers, at most `n`
jobs are concurrently dispatched (one `currentTaskId` slot per worker),
an idle worker and a queued job never coexist at rest, and dispatch is
FIFO with no other priority: submitting to a state with an idle worker
dispatches the new job to the first idle worker at once; a worker
finishing while jobs are queued is handed the earliest-submitted queued
job; submitting with no idle worker appends to the back of the queue. -/
theorem c6_pool_bounded_and_fifo (n : Nat) (s : PoolState)
    (h : PoolReachable n s) :
    busyCount s ≤ n
    ∧ (s.idleWorkers = [] ∨ s.tasks = [])
    ∧ (∀ t w rest, s.idleWorkers = w :: rest → s.tasks = [] →
        (execTask s t).workers[w]? = some ⟨true, some t⟩
        ∧ (execTask s t).idleWorkers = rest
        ∧ (execTask s t).tasks = [])
    ∧ (∀ w wi t ts, s.workers[w]? = some wi → wi.currentTaskId.isSome →
        s.tasks = t :: ts →
        (finishTask s w).workers[w]? = some ⟨true, some t⟩
        ∧ (finishTask s w).tasks = ts
        ∧ (finishTask s w).idleWorkers = [])
    ∧ (∀ t, s.idleWorkers = [] → (execTask s t).tasks = s.tasks ++ [t]) := by
  obtain ⟨hlen, hmem, hrest⟩ := poolInv_reachable n s h
  refine ⟨?_, hrest, ?_, ?_, ?_⟩
  · calc busyCount s ≤ s.workers.length := List.countP_le_length _
    _ = n := hlen
  · intro t w rest hidle htasks
    have hwlt : w < s.workers.length := by
      rw [hlen]; exact hmem w (by rw [hidle]; exact List.mem_cons_self _ _)
    unfold execTask
    rw [processNextTask_dispatch _ w rest t [] (by simp [hidle]) (by simp [htasks])]
    refine ⟨?_, rfl, rfl⟩
    simp [List.getElem?_set_self, hwlt]
  · intro w wi t ts hw hcur htasks
    have hwlt : w < s.workers.length := (List.getElem?_eq_some_iff.mp hw).1
    have hidle : s.idleWorkers = [] := by
      rcases hrest with h1 | h1
      · exact h1
      · rw [htasks] at h1; cases h1
    unfold finishTask
    rw [hw]
    simp only [hcur, if_true]
    rw [processNextTask_dispatch _ w [] t ts (by simp [hidle]) (by simp [htasks])]
    refine ⟨?_, rfl, rfl⟩
    simp [List.getElem?_set_self, hwlt]
  · intro t hidle
    unfold execTask
    rw [processNextTask_idle_nil _ (by simp [hidle])]

/-- Concrete reachable pool state for the C6 witness: one worker,
job 7 dispatched, job 9 queued. -/
def c6S : PoolState := execTask (execTask (initPool 1) 7) 9

/-- Witness for C6 at the concrete reachable state `c6S`. -/
theorem c6_pool_bounded_and_fifo_witness :
    busyCount c6S ≤ 1
    ∧ (c6S.idleWorkers = [] ∨ c6S.tasks = [])
    ∧ (∀ t w rest, c6S.idleWorkers = w :: rest → c6S.tasks = [] →
        (execTask c6S t).workers[w]? = some ⟨true, some t⟩
        ∧ (execTask c6S t).idleWorkers = rest
        ∧ (execTask c6S t).tasks = [])
    ∧ (∀ w wi t ts, c6S.workers[w]? = some wi → wi.currentTaskId.isSome →
        c6S.tasks = t :: ts →
        (finishTask c6S w).workers[w]? = some ⟨true, some t⟩
        ∧ (finishTask c6S w).tasks = ts
        ∧ (finishTask c6S w).idleWorkers = [])
    ∧ (∀ t, c6S.idleWorkers = [] → (execTask c6S t).tasks = c6S.tasks ++ [t]) :=
  c6_pool_bounded_and_fifo 1 c6S
    (Relation.ReflTransGen.tail
      (Relation.ReflTransGen.tail Relation.ReflTransGen.refl
        (PoolStep.exec (initPool 1) 7))
      (PoolStep.exec (execTask (initPool 1) 7) 9))

/- ----------------------------------------------------------------
   Client orchestrator (App.vue)
   ---------------------------------------------------------------- -/

/-- The component state relevant to the claims (from `data()`); the
display-only `uploadStatus` string, the hash-promise bookkeeping and the
performance metrics carry no behaviour for the claims and are omitted.
`selectedFile` is `(name, size)`. -/
structure ClientState where
  selectedFile : Option (String × Nat)
  chunkSize : Nat
  chunks : List ChunkDesc
  currentChunkIndex : Nat
  uploadId : Option Nat
  uploadProgress : ℚ
  isUploading : Bool
  isPaused : Bool
  uploadedChunks : List Nat
deriving DecidableEq

/-- `data()`: the fresh component state after a page load. -/
def initialClient : ClientState :=
  { selectedFile := none
    chunkSize := 10 * 1024 * 1024
    chunks := []
    currentChunkIndex := 0
    uploadId := none
    uploadProgress := 0
    isUploading := false
    isPaused := false
    uploadedChunks := [] }

/-- `handleFileChange` followed by `prepareChunks`: the only code run
when a file is selected (also after a reload).  It resets the upload
bookkeeping and rebuilds `chunks` with `hash: null`; nothing reads the
persisted localStorage state (`loadUploadState` has no call site in
App.vue). -/
def handleFileChange (s : ClientState) (name : String) (size : Nat) :
    ClientState :=
  { s with
    selectedFile := some (name, size)
    uploadProgress := 0
    isUploading := false
    isPaused := false
    uploadedChunks := []
    chunks := prepareChunks size s.chunkSize }

/-- The chunk indices submitted to the hash pool by
`calculateChunksHash`: exactly the chunks whose `hash` is still `null`. -/
def chunksToProcess (s : ClientState) : List Nat :=
  (s.chunks.filter (fun c => c.hash.isNone)).map (·.index)

/-- Shape of the state persisted by `saveUploadState` in localStorage. -/
structure PersistedState where
  uploadId : Option Nat
  fileName : String
  fileSize : Nat
  chunkSize : Nat
  uploadedChunks : List Nat
  chunksHash : List (Option String)
deriving DecidableEq

/-- The `uploadedChunks.forEach` loop marking restored indices
completed with progress 100 (indices out of range are skipped). -/
def markCompleted (chunks : List ChunkDesc) (idxs : List Nat) :
    List ChunkDesc :=
  idxs.foldl
    (fun cs i =>
      match cs[i]? with
      | some c => cs.set i { c with status := .completed, progress := 100 }
      | none => cs)
    chunks

/-- Body of the `while` loop advancing `currentChunkIndex` past
completed chunks; `fuel` bounds the structural recursion (each step
increments `i`, and the loop stops once `i` reaches the length). -/
def firstIncompleteAux (chunks : List ChunkDesc) : Nat → Nat → Nat
  | 0, i => i
  | fuel + 1, i =>
    if h : i < chunks.length then
      if chunks[i].status = .completed then firstIncompleteAux chunks fuel (i + 1)
      else i
    else i

/-- The `while` loop advancing `currentChunkIndex` past completed
chunks. -/
def firstIncompleteFrom (chunks : List ChunkDesc) (i : Nat) : Nat :=
  firstIncompleteAux chunks (chunks.length + 1 - i) i

/-- `this.chunks.filter(chunk => chunk.status === 'completed').length`. -/
def completedCount (s : ClientState) : Nat :=
  s.chunks.countP (fun c => decide (c.status = ChunkStatus.completed))

/-- The fractional progress of the chunk at `currentChunkIndex` (counted
only while it is `'uploading'`). -/
def currentFrac (s : ClientState) : ℚ :=
  match s.chunks[s.currentChunkIndex]? with
  | some c => if c.status = .uploading then c.progress else 0
  | none => 0

/-- `calculateTotalProgress`: 0 for an empty chunk list, otherwise
`(completed + currentProgress/100) / total * 100` clamped into
`[0, 100]` by `Math.min(100, Math.max(0, _))`. -/
def calculateTotalProgress (s : ClientState) : ℚ :=
  if s.chunks.length = 0 then 0
  else
    min 100 (max 0
      (((completedCount s : ℚ) + currentFrac s / 100) / (s.chunks.length : ℚ) * 100))

/-- `loadUploadState` (defined in App.vue but never invoked): restore
`uploadId`, `uploadedChunks` and the per-chunk hashes when the persisted
identity `(fileName, fileSize, chunkSize)` matches the selected file,
mark restored chunks completed, advance to the first incomplete index
and recompute the progress; returns whether a state was restored. -/
def loadUploadState (s : ClientState) (stored : Option PersistedState) :
    ClientState × Bool :=
  match s.selectedFile with
  | none => (s, false)
  | some (name, size) =>
    match stored with
    | none => (s, false)
    | some st =>
      if st.fileName = name ∧ st.fileSize = size ∧ st.chunkSize = s.chunkSize then
        let s1 := { s with uploadId := st.uploadId,
                           uploadedChunks := st.uploadedChunks }
        let s2 :=
          if st.chunksHash.length = s1.chunks.length then
            { s1 with chunks :=
                List.zipWith (fun c h => { c with hash := h }) s1.chunks st.chunksHash }
          else s1
        let s3 := { s2 with chunks := markCompleted s2.chunks st.uploadedChunks }
        let s4 := { s3 with currentChunkIndex := firstIncompleteFrom s3.chunks 0 }
        ({ s4 with uploadProgress := calculateTotalProgress s4 }, true)
      else (s, false)

/-- `initUpload`'s handling of a `code: 0` response: store the returned
`uploadId`; on `shouldSkipUpload` set progress 100 and stop; otherwise
mark any server-reported uploaded chunks completed, advance to the first
incomplete index and recompute the progress. -/
def applyInitResp (s : ClientState) (resp : InitResp) : ClientState :=
  let s1 := { s with uploadId := some resp.uploadId }
  if resp.shouldSkipUpload then
    { s1 with uploadProgress := 100, isUploading := false }
  else if resp.uploadedChunks ≠ [] then
    let s2 := { s1 with uploadedChunks := resp.uploadedChunks }
    let s3 := { s2 with chunks := markCompleted s2.chunks resp.uploadedChunks }
    let s4 := { s3 with currentChunkIndex := firstIncompleteFrom s3.chunks 0 }
    { s4 with uploadProgress := calculateTotalProgress s4 }
  else s1

/-- The network operation initiated by a client step. -/
inductive ClientAction
  | chunkRequest (uploadId : Nat) (index : Nat)
  | mergeRequest (uploadId : Option Nat)
deriving DecidableEq, Repr

/-- `uploadNextChunk`: return when not uploading or paused; merge when
past the last chunk; abort when `uploadId` is null; skip completed
chunks by advancing `currentChunkIndex` and recursing; otherwise mark
the chunk `'uploading'`, attach a cancel token and issue the chunk
request.  `fuel` bounds the structural recursion (the JS recursion
advances `currentChunkIndex` each time). -/
def uploadNextChunkLoop (s : ClientState) (fuel : Nat) :
    ClientState × Option ClientAction :=
  match fuel with
  | 0 => (s, none)
  | fuel + 1 =>
    if ¬s.isUploading ∨ s.isPaused then (s, none)
    else if s.chunks.length ≤ s.currentChunkIndex then
      (s, some (.mergeRequest s.uploadId))
    else
      match s.uploadId with
      | none => ({ s with isUploading := false }, none)
      | some uid =>
        match s.chunks[s.currentChunkIndex]? with
        | none => (s, none)
        | some c =>
          if c.status = .completed then
            uploadNextChunkLoop
              { s with currentChunkIndex := s.currentChunkIndex + 1 } fuel
          else
            let c' : ChunkDesc := { c with status := .uploading, hasCancelToken := true }
            ({ s with chunks := s.chunks.set s.currentChunkIndex c' },
             some (.chunkRequest uid c.index))

/-- `startUpload` once the init response `resp` has arrived: guard
against an active unpaused upload, run `initUpload` when there is no
`uploadId` yet, then unconditionally set `isUploading`, clear
`isPaused` and call `uploadNextChunk` — there is no re-check of
`shouldSkipUpload` after `initUpload` returns.  (The hash-wait branches
only await completion and are not modelled; all chunks are assumed
fingerprinted.) -/
def startUpload (s : ClientState) (resp : InitResp) :
    ClientState × Option ClientAction :=
  if s.isUploading ∧ ¬s.isPaused then (s, none)
  else
    let s1 := if s.uploadId = none then applyInitResp s resp else s
    let s2 := { s1 with isUploading := true, isPaused := false }
    uploadNextChunkLoop s2 (s2.chunks.length + 1 - s2.currentChunkIndex)

/-- `file.slice(chunk.start, chunk.end)`: the bytes sent for a chunk —
always the full `[start, end)` range of the file, never an offset into
the chunk. -/
def chunkRequestBody (file : Bytes) (c : ChunkDesc) : Bytes :=
  (file.drop c.start).take (c.endPos - c.start)

/-- `pauseUpload`: set `isPaused`, and if the current chunk carries a
cancel token, cancel it and mark that chunk `'paused'`
(`saveUploadState` only writes localStorage). -/
def pauseUpload (s : ClientState) : ClientState :=
  let s1 := { s with isPaused := true }
  match s1.chunks[s1.currentChunkIndex]? with
  | some c =>
    if c.hasCancelToken then
      let c' : ChunkDesc := { c with status := .paused }
      { s1 with chunks := s1.chunks.set s1.currentChunkIndex c' }
    else s1
  | none => s1

/-- `cancelUpload`: stop, unpause, reset the reported progress to 0 and
the index to 0 (the cancel-token call aborts the network request and the
localStorage entry is removed; neither changes this state). -/
def cancelUpload (s : ClientState) : ClientState :=
  { s with isUploading := false, isPaused := false, uploadProgress := 0,
           currentChunkIndex := 0 }

/-- The `onUploadProgress` callback: set the current chunk's progress to
`p` and recompute the reported progress. -/
def onChunkProgress (s : ClientState) (p : ℚ) : ClientState :=
  match s.chunks[s.currentChunkIndex]? with
  | some c =>
    let c' : ChunkDesc := { c with progress := p }
    let s1 := { s with chunks := s.chunks.set s.currentChunkIndex c' }
    { s1 with uploadProgress := calculateTotalProgress s1 }
  | none => s

/-- The `response.data.code === 0` success branch of `uploadNextChunk`:
mark the current chunk completed with progress 100, record its index,
recompute the reported progress, then advance `currentChunkIndex`. -/
def completeCurrentChunk (s : ClientState) : ClientState :=
  match s.chunks[s.currentChunkIndex]? with
  | some c =>
    let c' : ChunkDesc := { c with status := .completed, progress := 100 }
    let s1 := { s with
      chunks := s.chunks.set s.currentChunkIndex c'
      uploadedChunks := s.uploadedChunks ++ [c.index] }
    let s2 := { s1 with uploadProgress := calculateTotalProgress s1 }
    { s2 with currentChunkIndex := s.currentChunkIndex + 1 }
  | none => s

/- ----------------------------------------------------------------
   C4: dedup ("instant upload") path
   ---------------------------------------------------------------- -/

/-- Client state for C4: a freshly selected 25-byte file, chunk size 10,
all three chunks fingerprinted `"h"`, no session yet. -/
def c4Client : ClientState :=
  { selectedFile := some ("a.bin", 25)
    chunkSize := 10
    chunks := (prepareChunks 25 10).map (fun c => { c with hash := some "h" })
    currentChunkIndex := 0
    uploadId := none
    uploadProgress := 0
    isUploading := false
    isPaused := false
    uploadedChunks := [] }

/-- Init request matching `c4Client` (fingerprint set `h, h, h`). -/
def c4InitReq : InitReq :=
  { fileName := "a.bin", fileSize := 25, chunkSize := 10, chunkCount := 3,
    chunksInfo := [⟨0, "h", 10⟩, ⟨1, "h", 10⟩, ⟨2, "h", 5⟩] }

/-- Server state for C4: the dedup index maps the joined key `"h_h_h"` to
the artifact `a.bin`, which exists in the upload directory. -/
def c4Server : ServerState :=
  { uploadTasks := [], fileHashMap := [("h_h_h", ⟨"a.bin", 25⟩)],
    tempChunks := [], tempHashes := [],
    uploadFiles := [("a.bin", List.replicate 25 0)], nextId := 42 }

/-- C4 fails on the code.  Server side the claim holds: the init request
hits the dedup index, returns `shouldSkipUpload = true` with a fresh
sessionId (42), stores no chunk bytes and creates no session, and a
second identical init also returns the dedup signal.  Client side,
`initUpload` does set progress 100 and `isUploading = false` — but its
caller `startUpload` never re-checks the dedup outcome: it sets
`isUploading` back to `true` and `uploadNextChunk` issues a chunk-upload
request for index 0 carrying the dedup sessionId 42, so the sessionId IS
used for transfer and the chunk-transfer count is not zero. -/
theorem c4_dedup_client_still_transfers :
    (initHandler c4Server c4InitReq).2.shouldSkipUpload = true
    ∧ (initHandler c4Server c4InitReq).2.uploadId = 42
    ∧ (initHandler c4Server c4InitReq).1.uploadTasks = c4Server.uploadTasks
    ∧ (initHandler c4Server c4InitReq).1.tempChunks = c4Server.tempChunks
    ∧ (initHandler (initHandler c4Server c4InitReq).1 c4InitReq).2.shouldSkipUpload
        = true
    ∧ (applyInitResp c4Client (initHandler c4Server c4InitReq).2).uploadProgress
        = 100
    ∧ (applyInitResp c4Client (initHandler c4Server c4InitReq).2).isUploading
        = false
    ∧ (startUpload c4Client (initHandler c4Server c4InitReq).2).2
        = some (ClientAction.chunkRequest 42 0)
    ∧ (startUpload c4Client (initHandler c4Server c4InitReq).2).1.isUploading
        = true := by
  decide

/- ----------------------------------------------------------------
   C5: reload recovery
   ---------------------------------------------------------------- -/

/-- Persisted state for C5: K = 1 of T = 3 chunks completed for the same
`(fileName, fileSize, chunkSize)` identity, all three fingerprints
already stored. -/
def c5Persisted : PersistedState :=
  { uploadId := some 3, fileName := "a.bin", fileSize := 25 * 1024 * 1024,
    chunkSize := 10 * 1024 * 1024, uploadedChunks := [0],
    chunksHash := [some "h0", some "h1", some "h2"] }

/-- The client state after a reload and re-selection of the same file:
`data()` then `handleFileChange` (nothing else runs on selection). -/
def c5Reload : ClientState :=
  handleFileChange initialClient "a.bin" (25 * 1024 * 1024)

/-- C5 fails on the code: `loadUploadState` has no call site, so after a
reload the selection path (`handleFileChange` → `prepareChunks` →
`calculateChunksHash`) rebuilds every chunk with `hash: null` and
`status: 'pending'` and resets `uploadedChunks`; all T = 3 fingerprints
are recomputed and all 3 chunks are transferred from index 0, not the
T − K = 2 incomplete ones.  The last four conjuncts evaluate the dead
`loadUploadState` on the same persisted state and show it WOULD have
restored the bookkeeping (matching identity, index 0 completed, no
fingerprint left to recompute, resume at first incomplete index 1) —
the restore logic exists but is never invoked. -/
theorem c5_reload_recomputes_everything :
    chunksToProcess c5Reload = [0, 1, 2]
    ∧ c5Reload.uploadedChunks = []
    ∧ completedCount c5Reload = 0
    ∧ c5Reload.currentChunkIndex = 0
    ∧ (loadUploadState c5Reload (some c5Persisted)).2 = true
    ∧ (loadUploadState c5Reload (some c5Persisted)).1.uploadedChunks = [0]
    ∧ chunksToProcess (loadUploadState c5Reload (some c5Persisted)).1 = []
    ∧ (loadUploadState c5Reload (some c5Persisted)).1.currentChunkIndex = 1 := by
  decide

/- ----------------------------------------------------------------
   C8: pause
   ---------------------------------------------------------------- -/

/-- Client state for C8/C9 counterexamples: chunk 0 completed, chunk 1
in flight at 40% with a cancel token attached. -/
def c8S : ClientState :=
  { selectedFile := some ("a", 4)
    chunkSize := 2
    chunks := [⟨0, 0, 2, 100, .completed, some "h0", false⟩,
               ⟨1, 2, 4, 40, .uploading, some "h1", true⟩]
    currentChunkIndex := 1
    uploadId := some 5
    uploadProgress := 70
    isUploading := true
    isPaused := false
    uploadedChunks := [0] }

/-- Counterexample to C8 as stated: pausing while chunk 1 is in flight
sets that chunk's status to `'paused'`, not `'pending'` — the source has
both states and `pauseUpload` assigns `'paused'`. -/
theorem c8_pause_sets_paused_not_pending :
    ((pauseUpload c8S).chunks[1]?).map ChunkDesc.status = some ChunkStatus.paused
    ∧ ((pauseUpload c8S).chunks[1]?).map ChunkDesc.status
        ≠ some ChunkStatus.pending := by
  decide

/-- C8 amended: pause aborts the in-flight transfer while leaving every
other chunk's record and the completed-index list unchanged; the aborted
chunk is marked `'paused'` (a non-completed state, not `'pending'`), and
the bytes sent for a chunk are always the full `[start, end)` slice of
the file — independent of the recorded partial `progress`, status or
token, so on resume the chunk is resent from the start and partial-byte
resume is never attempted. -/
theorem c8_pause_aborts_without_discarding (s : ClientState) (c : ChunkDesc)
    (hc : s.chunks[s.currentChunkIndex]? = some c)
    (htok : c.hasCancelToken = true) :
    (pauseUpload s).isPaused = true
    ∧ (pauseUpload s).uploadedChunks = s.uploadedChunks
    ∧ (∀ j, j ≠ s.currentChunkIndex → (pauseUpload s).chunks[j]? = s.chunks[j]?)
    ∧ (pauseUpload s).chunks[s.currentChunkIndex]?
        = some { c with status := ChunkStatus.paused }
    ∧ (∀ file p st hct,
        chunkRequestBody file { c with progress := p, status := st, hasCancelToken := hct }
          = chunkRequestBody file c) := by
  have hlt : s.currentChunkIndex < s.chunks.length :=
    (List.getElem?_eq_some_iff.mp hc).1
  refine ⟨?_, ?_, ?_, ?_, ?_⟩
  · simp [pauseUpload, hc, htok]
  · simp [pauseUpload, hc, htok]
  · intro j hj
    simp only [pauseUpload, hc, htok, if_true]
    exact List.getElem?_set_ne (fun habs => hj habs.symm)
  · simp only [pauseUpload, hc, htok, if_true]
    rw [List.getElem?_set_self]
    exact hlt
  · intro file p st hct
    rfl

/-- Witness for C8 at `c8S` (current chunk 1, token attached). -/
theorem c8_pause_aborts_without_discarding_witness :
    (pauseUpload c8S).isPaused = true
    ∧ (pauseUpload c8S).uploadedChunks = c8S.uploadedChunks
    ∧ (∀ j, j ≠ c8S.currentChunkIndex → (pauseUpload c8S).chunks[j]? = c8S.chunks[j]?)
    ∧ (pauseUpload c8S).chunks[c8S.currentChunkIndex]?
        = some { (⟨1, 2, 4, 40, .uploading, some "h1", true⟩ : ChunkDesc) with
                  status := ChunkStatus.paused }
    ∧ (∀ file p st hct,
        chunkRequestBody file
            { (⟨1, 2, 4, 40, .uploading, some "h1", true⟩ : ChunkDesc) with
              progress := p, status := st, hasCancelToken := hct }
          = chunkRequestBody file ⟨1, 2, 4, 40, .uploading, some "h1", true⟩) :=
  c8_pause_aborts_without_discarding c8S ⟨1, 2, 4, 40, .uploading, some "h1", true⟩
    rfl rfl

/- ----------------------------------------------------------------
   C9: progress range, formula, and monotonicity
   ---------------------------------------------------------------- -/

theorem countP_set_same {α : Type} (l : List α) (i : Nat) (a : α) (p : α → Bool)
    (hi : i < l.length) (h : p (l.get ⟨i, hi⟩) = p a) :
    (l.set i a).countP p = l.countP p := by
  induction l generalizing i with
  | nil => simp at hi
  | cons x xs ih =>
    cases i with
    | zero =>
      simp only [List.get] at h
      simp [List.set, List.countP_cons, h]
    | succ n =>
      have hn : n < xs.length := by simpa using hi
      simp only [List.get] at h
      simp [List.set, List.countP_cons, ih n hn h]

theorem countP_set_incr {α : Type} (l : List α) (i : Nat) (a : α) (p : α → Bool)
    (hi : i < l.length) (hpa : p a = true) (hpl : p (l.get ⟨i, hi⟩) = false) :
    (l.set i a).countP p = l.countP p + 1 := by
  induction l generalizing i with
  | nil => simp at hi
  | cons x xs ih =>
    cases i with
    | zero =>
      simp only [List.get] at hpl
      simp [List.set, List.countP_cons, hpa, hpl]
    | succ n =>
      have hn : n < xs.length := by simpa using hi
      simp only [List.get] at hpl
      simp [List.set, List.countP_cons, ih n hn hpl]
      omega

theorem clampQ_mono {x y : ℚ} (h : x ≤ y) :
    min 100 (max 0 x) ≤ min 100 (max 0 y) :=
  min_le_min (le_refl _) (max_le_max (le_refl _) h)

/-- Monotonicity of the progress expression in the fractional part. -/
theorem progressVal_mono (cc n : ℚ) (hn : 0 < n) {x y : ℚ} (h : x ≤ y) :
    min 100 (max 0 ((cc + x / 100) / n * 100))
      ≤ min 100 (max 0 ((cc + y / 100) / n * 100)) := by
  apply clampQ_mono
  have h1 : cc + x / 100 ≤ cc + y / 100 := by
    have h2 := (div_le_div_iff_of_pos_right (show (0:ℚ) < 100 by norm_num)).mpr h
    linarith
  have h3 : (cc + x / 100) / n ≤ (cc + y / 100) / n :=
    (div_le_div_iff_of_pos_right hn).mpr h1
  exact mul_le_mul_of_nonneg_right h3 (by norm_num)

/-- `calculateTotalProgress` on a non-empty chunk list, unclamped shape. -/
theorem calculateTotalProgress_eq (s : ClientState) (h : s.chunks.length ≠ 0) :
    calculateTotalProgress s
      = min 100 (max 0
          (((completedCount s : ℚ) + currentFrac s / 100)
            / (s.chunks.length : ℚ) * 100)) := by
  unfold calculateTotalProgress
  rw [if_neg h]

/-- C9 amended: the reported progress always lies in [0,100]; on a
non-empty chunk list it equals
`(completedChunks + in-flight fraction/100) / totalChunks * 100`
whenever that expression is itself within range (the clamp is the
identity there); and it is non-decreasing across chunk progress events
and chunk completions.  It is NOT monotone across every orchestrator
operation: `cancelUpload` resets it to 0 (see the counterexample). -/
theorem c9_progress_range_formula_mono (s : ClientState) :
    (0 ≤ calculateTotalProgress s ∧ calculateTotalProgress s ≤ 100)
    ∧ (s.chunks.length ≠ 0 → 0 ≤ currentFrac s →
        (completedCount s : ℚ) + currentFrac s / 100 ≤ (s.chunks.length : ℚ) →
        calculateTotalProgress s
          = ((completedCount s : ℚ) + currentFrac s / 100)
              / (s.chunks.length : ℚ) * 100)
    ∧ (∀ c p', s.chunks[s.currentChunkIndex]? = some c →
        c.status = ChunkStatus.uploading → c.progress ≤ p' →
        calculateTotalProgress s ≤ (onChunkProgress s p').uploadProgress)
    ∧ (∀ c, s.chunks[s.currentChunkIndex]? = some c →
        c.status = ChunkStatus.uploading → c.progress ≤ 100 →
        calculateTotalProgress s ≤ (completeCurrentChunk s).uploadProgress) := by
  refine ⟨?_, ?_, ?_, ?_⟩
  · unfold calculateTotalProgress
    by_cases h : s.chunks.length = 0
    · rw [if_pos h]; norm_num
    · rw [if_neg h]
      exact ⟨le_min (by norm_num) (le_max_left _ _), min_le_left _ _⟩
  · intro hlen hfrac hle
    rw [calculateTotalProgress_eq s hlen]
    have hn : (0:ℚ) < (s.chunks.length : ℚ) := by
      exact_mod_cast Nat.pos_of_ne_zero hlen
    have h0 : 0 ≤ ((completedCount s : ℚ) + currentFrac s / 100)
        / (s.chunks.length : ℚ) * 100 :=
      mul_nonneg
        (div_nonneg
          (add_nonneg (Nat.cast_nonneg _) (div_nonneg hfrac (by norm_num)))
          (le_of_lt hn))
        (by norm_num)
    have h100 : ((completedCount s : ℚ) + currentFrac s / 100)
        / (s.chunks.length : ℚ) * 100 ≤ 100 := by
      have hd : ((completedCount s : ℚ) + currentFrac s / 100)
          / (s.chunks.length : ℚ) ≤ 1 := (div_le_one hn).mpr hle
      calc ((completedCount s : ℚ) + currentFrac s / 100)
          / (s.chunks.length : ℚ) * 100
          ≤ 1 * 100 := mul_le_mul_of_nonneg_right hd (by norm_num)
        _ = 100 := by norm_num
    rw [max_eq_right h0, min_eq_right h100]
  · intro c p' hc hst hle
    obtain ⟨hlt, hget⟩ := List.getElem?_eq_some_iff.mp hc
    have hn0 : s.chunks.length ≠ 0 := by omega
    have hn : (0:ℚ) < (s.chunks.length : ℚ) := by
      exact_mod_cast Nat.pos_of_ne_zero hn0
    have hstate : (onChunkProgress s p').uploadProgress
        = calculateTotalProgress { s with chunks := s.chunks.set s.currentChunkIndex { c with progress := p' } } := by
      unfold onChunkProgress
      rw [hc]
    rw [hstate]
    have hlen1 : (s.chunks.set s.currentChunkIndex { c with progress := p' }).length = s.chunks.length :=
      List.length_set ..
    have hcc1 : completedCount { s with chunks := s.chunks.set s.currentChunkIndex { c with progress := p' } } = completedCount s := by
      unfold completedCount
      apply countP_set_same _ _ _ _ hlt
      rw [List.get_eq_getElem, hget]
    have hfrac : currentFrac s = c.progress := by
      unfold currentFrac
      rw [hc]
      simp [hst]
    have hfrac1 : currentFrac { s with chunks := s.chunks.set s.currentChunkIndex { c with progress := p' } } = p' := by
      unfold currentFrac
      have hset : (s.chunks.set s.currentChunkIndex { c with progress := p' })[s.currentChunkIndex]?
          = some { c with progress := p' } := by
        rw [List.getElem?_set_self]
        exact hlt
      simp only [hset]
      simp [hst]
    rw [calculateTotalProgress_eq s hn0,
      calculateTotalProgress_eq _ (by simpa [hlen1] using hn0)]
    simp only [hcc1, hfrac, hfrac1, hlen1]
    exact progressVal_mono _ _ hn hle
  · intro c hc hst hle
    obtain ⟨hlt, hget⟩ := List.getElem?_eq_some_iff.mp hc
    have hn0 : s.chunks.length ≠ 0 := by omega
    have hn : (0:ℚ) < (s.chunks.length : ℚ) := by
      exact_mod_cast Nat.pos_of_ne_zero hn0
    have hstate : (completeCurrentChunk s).uploadProgress
        = calculateTotalProgress { s with chunks := s.chunks.set s.currentChunkIndex { c with status := .completed, progress := 100 }, uploadedChunks := s.uploadedChunks ++ [c.index] } := by
      unfold completeCurrentChunk
      rw [hc]
    rw [hstate]
    have hlen1 : (s.chunks.set s.currentChunkIndex { c with status := ChunkStatus.completed, progress := 100 }).length = s.chunks.length :=
      List.length_set ..
    have hcc1 : completedCount { s with chunks := s.chunks.set s.currentChunkIndex { c with status := .completed, progress := 100 }, uploadedChunks := s.uploadedChunks ++ [c.index] } = completedCount s + 1 := by
      unfold completedCount
      apply countP_set_incr _ _ _ _ hlt
      · simp
      · rw [List.get_eq_getElem, hget]
        simp [hst]
    have hfrac : currentFrac s = c.progress := by
      unfold currentFrac
      rw [hc]
      simp [hst]
    have hfrac1 : currentFrac { s with chunks := s.chunks.set s.currentChunkIndex { c with status := .completed, progress := 100 }, uploadedChunks := s.uploadedChunks ++ [c.index] } = 0 := by
      unfold currentFrac
      have hset : (s.chunks.set s.currentChunkIndex { c with status := ChunkStatus.completed, progress := 100 })[s.currentChunkIndex]?
          = some { c with status := ChunkStatus.completed, progress := 100 } := by
        rw [List.getElem?_set_self]
        exact hlt
      simp only [hset]
      simp
    rw [calculateTotalProgress_eq s hn0,
      calculateTotalProgress_eq _ (by simpa [hlen1] using hn0)]
    simp only [hcc1, hfrac, hfrac1, hlen1]
    have hcast : ((completedCount s + 1 : ℕ) : ℚ) = (completedCount s : ℚ) + 1 := by
      push_cast
      ring
    rw [hcast]
    have h1 : (completedCount s : ℚ) + c.progress / 100
        ≤ (completedCount s : ℚ) + 1 := by
      have h2 := (div_le_one (show (0:ℚ) < 100 by norm_num)).mpr hle
      linarith
    apply clampQ_mono
    have h3 := (div_le_div_iff_of_pos_right hn).mpr h1
    have h4 : ((completedCount s : ℚ) + 1 + 0 / 100)
        = (completedCount s : ℚ) + 1 := by norm_num
    rw [h4]
    exact mul_le_mul_of_nonneg_right h3 (by norm_num)

/-- Client state for the C9 counterexample: 1 of 2 chunks completed, so
the reported progress is 50. -/
def c9S : ClientState :=
  { selectedFile := some ("b", 4)
    chunkSize := 2
    chunks := [⟨0, 0, 2, 100, .completed, some "h0", false⟩,
               ⟨1, 2, 4, 0, .pending, some "h1", false⟩]
    currentChunkIndex := 1
    uploadId := some 6
    uploadProgress := 50
    isUploading := true
    isPaused := false
    uploadedChunks := [0] }

/-- Counterexample to C9 as stated: `cancelUpload` — one of the listed
orchestrator operations — resets the reported progress from 50 to 0, so
the progress is not monotonically non-decreasing across every sequence
of orchestrator operations. -/
theorem c9_cancel_drops_progress :
    c9S.uploadProgress = calculateTotalProgress c9S
    ∧ (cancelUpload c9S).uploadProgress < c9S.uploadProgress := by
  constructor
  · norm_num +decide [c9S, calculateTotalProgress, completedCount, currentFrac,
      List.countP_cons, min_def, max_def]
  · norm_num [c9S, cancelUpload]

/-- Witness for C9 at `c8S` (chunk 1 in flight at 40%): range, exact
formula, a progress event to 60, and completion of the current chunk. -/
theorem c9_progress_range_formula_mono_witness :
    (0 ≤ calculateTotalProgress c8S ∧ calculateTotalProgress c8S ≤ 100)
    ∧ calculateTotalProgress c8S
        = ((completedCount c8S : ℚ) + currentFrac c8S / 100)
            / (c8S.chunks.length : ℚ) * 100
    ∧ calculateTotalProgress c8S ≤ (onChunkProgress c8S 60).uploadProgress
    ∧ calculateTotalProgress c8S ≤ (completeCurrentChunk c8S).uploadProgress :=
  ⟨(c9_progress_range_formula_mono c8S).1,
   (c9_progress_range_formula_mono c8S).2.1 (by decide)
     (by norm_num [c8S, currentFrac])
     (by norm_num +decide [c8S, completedCount, currentFrac, List.countP_cons]),
   (c9_progress_range_formula_mono c8S).2.2.1
     ⟨1, 2, 4, 40, .uploading, some "h1", true⟩ 60 rfl rfl (by norm_num),
   (c9_progress_range_formula_mono c8S).2.2.2
     ⟨1, 2, 4, 40, .uploading, some "h1", true⟩ rfl rfl (by norm_num)⟩
